import Mathlib

/-!
Verification development for the `ellipsis-com` serial-communication library
(`src/ComPort.ts`, `src/ComMacro.ts` / `ComManager`, `src/ComType.ts`).

The TypeScript source is shallowly embedded: the asynchronous, event-driven
code is modelled as explicit state passing over a `ComPortState` record.  The
single-threaded JavaScript event loop is modelled by an explicit schedule of
transport events (`data` / `error`) delivered between polls of the read loop,
and the transport collaborator (the `serialport` package, as characterised by
the repository's `__mocks__/serialport.ts`) is modelled by an environment
record supplying the outcome of each `open` / `write` / `close` call: closing
always leaves `isOpen = false` and optionally reports an error.
-/

/-! ## JavaScript values and parameter objects

`ComPort.send` resolves `{token}` placeholders against a `params` object.
`JVal` models the JSON-like values involved; `Option JVal` models a JS value
that may be `undefined` (`none`). -/

inductive JVal where
  | str : String → JVal
  | num : Int → JVal
  | obj : List (String × JVal) → JVal
  | arr : List JVal → JVal

/-- The top-level `params` object: an ordered field list. -/
abbrev JParams := List (String × JVal)

/-! Kernel-computable string helpers (Lean's own `String.trim`,
`String.splitOn`, … are defined by position arithmetic that does not reduce
inside the kernel; these `List Char` versions model the corresponding JS
string operations). -/

/-- JS `s.endsWith(c)` for a one-character suffix. -/
def strEndsWithChar (s : String) (c : Char) : Bool :=
  s.toList.getLast? == some c

/-- JS `s.trim()`: strip whitespace from both ends. -/
def strTrim (s : String) : String :=
  String.mk (((s.toList.dropWhile Char.isWhitespace).reverse.dropWhile
    Char.isWhitespace).reverse)

def splitOnCharAux (sep : Char) : List Char → List Char → List (List Char)
  | [], acc => [acc.reverse]
  | c :: rest, acc =>
      if c == sep then acc.reverse :: splitOnCharAux sep rest []
      else splitOnCharAux sep rest (c :: acc)

/-- JS `s.split(sep)` for a one-character separator. -/
def splitOnChar (sep : Char) (s : String) : List String :=
  (splitOnCharAux sep s.toList []).map String.mk

/-- A string that is a canonical decimal numeral, as a `Nat`. -/
def strToNatDigits (s : String) : Option Nat :=
  let cs := s.toList
  if cs.isEmpty || !(cs.all Char.isDigit) then none
  else some (cs.foldl (fun acc c => acc * 10 + (c.toNat - '0'.toNat)) 0)

/-- JS object field access `o[k]` for a plain object (field list). -/
def jsField (fs : List (String × JVal)) (k : String) : Option JVal :=
  (fs.find? (fun kv => kv.1 == k)).map (·.2)

/-- JS `v.hasOwnProperty(k)`.  Objects own their fields; arrays own their
numeric indices and `length`; strings own their indices and `length`;
primitive numbers own nothing relevant here. -/
def jsHasOwnProperty (v : JVal) (k : String) : Bool :=
  match v with
  | .obj fs => fs.any (fun kv => kv.1 == k)
  | .arr xs => k == "length" ||
      (match strToNatDigits k with
       | some i => decide (i < xs.length) && (toString i == k)
       | none => false)
  | .str s => k == "length" ||
      (match strToNatDigits k with
       | some i => decide (i < s.length) && (toString i == k)
       | none => false)
  | .num _ => false

/-- JS property read `v[k]` (for the property kinds of `jsHasOwnProperty`). -/
def jsIndex (v : JVal) (k : String) : Option JVal :=
  match v with
  | .obj fs => jsField fs k
  | .arr xs =>
      if k == "length" then some (.num xs.length)
      else match strToNatDigits k with
        | some i => xs.get? i
        | none => none
  | .str s =>
      if k == "length" then some (.num s.length)
      else match strToNatDigits k with
        | some i => (s.toList.get? i).map (fun c => .str (String.mk [c]))
        | none => none
  | .num _ => none

/-- JS array read `xs[i]` with an `Int` index: negative or out-of-range
indices read as `undefined`. -/
def jsArrGet (xs : List JVal) (i : Int) : Option JVal :=
  if i < 0 then none else xs.get? i.toNat

/-- JS truthiness of a possibly-`undefined` value (`undefined`, `""` and `0`
are falsy; objects and arrays are truthy). -/
def jsTruthy : Option JVal → Bool
  | none => false
  | some (.str s) => !(s == "")
  | some (.num n) => !(n == 0)
  | some (.obj _) => true
  | some (.arr _) => true

/-- `Array.isArray(v)` on a possibly-`undefined` value. -/
def jsIsArray : Option JVal → Bool
  | some (.arr _) => true
  | _ => false

/-- JS `parseInt`: an optional sign followed by leading decimal digits;
`none` models `NaN`. -/
def jsParseInt (s : String) : Option Int :=
  let cs := s.toList.dropWhile Char.isWhitespace
  let (neg, ds) := match cs with
    | '-' :: rest => (true, rest)
    | '+' :: rest => (false, rest)
    | rest => (false, rest)
  let digits := ds.takeWhile Char.isDigit
  if digits.isEmpty then none
  else
    let n := digits.foldl (fun acc c => acc * 10 + (c.toNat - '0'.toNat)) 0
    some (if neg then -(n : Int) else (n : Int))

/-- JS `length > index` where `index` may be `NaN` (`none`): any comparison
with `NaN` is false. -/
def jsLtLen (len : Nat) (idx : Option Int) : Bool :=
  match idx with
  | none => false
  | some i => decide (i < (len : Int))

/-- String-to-value coercion JS performs when a non-string replacement is
passed to `String.replaceAll` (`ToString`): `undefined` becomes the text
`"undefined"`. -/
def jsToStringVal : JVal → String
  | .str s => s
  | .num n => toString n
  | .obj _ => "[object Object]"
  | .arr _ => "[array]"

def jsToStringOpt : Option JVal → String
  | none => "undefined"
  | some v => jsToStringVal v

/-! ## Token resolution (`ComPort.send`, src/ComPort.ts lines 284–315)

A token `p` is resolved to a value: a plain token reads `params[p]`; a dotted
token first reads the top-level key, then walks every component of
`p.split('.')` (including the first), taking a property step when the current
value owns the component, else an array-index step when the component looks
like `name[i]`, else leaving the value unchanged. -/

/-- One iteration of the `for (let key of keys)` loop in `ComPort.send`. -/
def resolveKeyStep (val : Option JVal) (key : String) : Option JVal :=
  if jsTruthy val && (match val with | some v => jsHasOwnProperty v key | none => false) then
    val.bind (fun v => jsIndex v key)
  else if strEndsWithChar key ']' && key.toList.contains '[' then
    let pre := key.toList.takeWhile (fun c => !(c == '['))
    let arrKey : String := String.mk pre
    let innerFull := (key.toList.dropWhile (fun c => !(c == '['))).drop 1
    let indexStr : String := String.mk innerFull.dropLast
    let index := jsParseInt indexStr
    let inner := val.bind (fun v => jsIndex v arrKey)
    if jsTruthy val &&
        (match val with | some v => jsHasOwnProperty v arrKey | none => false) &&
        jsIsArray inner &&
        (match inner with
         | some (.arr xs) => jsLtLen xs.length index
         | _ => false) then
      match inner, index with
      | some (.arr xs), some i => jsArrGet xs i
      | _, _ => none
    else val
  else val

/-- Resolution of one token against the params object (the body computing
`val` in `ComPort.send`). -/
def resolveToken (params : JParams) (p : String) : Option JVal :=
  if p.toList.contains '.' then
    let top := String.mk (p.toList.takeWhile (fun c => !(c == '.')))
    let val0 := jsField params top
    (splitOnChar '.' p).foldl resolveKeyStep val0
  else jsField params p

/-! ## Token extraction (`/{([^\x7d]+)}/gm` exec loop)

The extraction regex matches a `\x7b`, then one or more characters other than
`\x7d`, then a `\x7d`; the loop collects capture group 1 for every match, left
to right, resuming after each match. -/

/-- The extraction scan as a left-to-right state machine: outside any token
(`none`) a `\x7b` opens a capture; inside a capture (`some acc`, reversed
accumulator) a `\x7d` closes it, emitting the capture when nonempty (the
regex requires at least one captured character), and any other character —
including a further `\x7b` — is captured. -/
def extractTokensGo : Option (List Char) → List Char → List String
  | _, [] => []
  | none, c :: rest =>
      if c == '{' then extractTokensGo (some []) rest
      else extractTokensGo none rest
  | some acc, c :: rest =>
      if c == '}' then
        if acc.isEmpty then extractTokensGo none rest
        else String.mk acc.reverse :: extractTokensGo none rest
      else extractTokensGo (some (c :: acc)) rest

/-- All `\x7b…\x7d` tokens of a command template, in match order
(`commandParams` in `ComPort.send`). -/
def extractTokens (command : String) : List String :=
  extractTokensGo none command.toList

/-! ## The replacement regex `new RegExp('\x7b' + p + '\x7d', 'g')`

`ComPort.send` builds the replacement pattern by splicing the raw token text
into a regex.  For the pattern fragments a token can contain, JS parses: `[`
opens a character class (a finite set of characters here — token paths never
produce ranges or negations), `.` is the wildcard (any character except a
line terminator), and every other character — including `\x7b` and `\x7d`,
which cannot form a quantifier here — matches literally. -/

inductive RChar where
  | lit : Char → RChar
  | any : RChar
  | cls : List Char → RChar
deriving DecidableEq

def rcharMatch : RChar → Char → Bool
  | .lit a, c => a == c
  | .any, c => !(c == '\n' || c == '\r')
  | .cls l, c => l.contains c

/-- Compile the spliced regex source into a sequence of single-character
matchers, scanning left to right: outside a class (`none`), `[` opens a class
accumulator, `.` emits the wildcard, and any other character emits a literal;
inside a class (`some acc`), `]` closes it and any other character joins it.
(An unterminated class, which would be a JS `SyntaxError`, compiles to a
trailing class; no token considered here produces one.) -/
def compileRegexGo : Option (List Char) → List Char → List RChar
  | none, [] => []
  | none, c :: rest =>
      if c == '[' then compileRegexGo (some []) rest
      else if c == '.' then RChar.any :: compileRegexGo none rest
      else RChar.lit c :: compileRegexGo none rest
  | some acc, [] => [RChar.cls acc.reverse]
  | some acc, c :: rest =>
      if c == ']' then RChar.cls acc.reverse :: compileRegexGo none rest
      else compileRegexGo (some (c :: acc)) rest

def compileRegex (s : String) : List RChar :=
  compileRegexGo none s.toList

/-- Try to match the whole matcher sequence at the head of the input;
on success return the remaining input. -/
def matchAt : List RChar → List Char → Option (List Char)
  | [], s => some s
  | _ :: _, [] => none
  | r :: rs, c :: cs => if rcharMatch r c then matchAt rs cs else none

theorem matchAt_length : ∀ (ps : List RChar) (s r : List Char), matchAt ps s = some r → r.length + ps.length = s.length := by
  intro ps
  induction ps with
  | nil => intro s r h; simp only [matchAt, Option.some.injEq] at h; subst h; simp
  | cons p ps ih =>
    intro s r h
    match s with
    | [] => simp [matchAt] at h
    | c :: cs =>
      simp only [matchAt] at h
      by_cases hm : rcharMatch p c = true
      · rw [if_pos hm] at h
        have := ih cs r h
        simp only [List.length_cons]
        omega
      · rw [if_neg hm] at h
        exact absurd h (by simp)

/-- `String.replaceAll` with a global regex and a plain replacement string:
scan left to right, replacing each leftmost non-overlapping match and
resuming after it.  The compiled patterns used here are nonempty and consume
one character per matcher, so matches are never empty and each step consumes
at least one input character: with the wrapper's fuel `s.length` the fuel
never runs out (`replaceAllGo_fuel_irrel` below). -/
def replaceAllGo (pat : List RChar) (repl : List Char) : Nat → List Char → List Char
  | _, [] => []
  | 0, s => s
  | fuel + 1, c :: cs =>
      match matchAt pat (c :: cs) with
      | some rest => repl ++ replaceAllGo pat repl fuel rest
      | none => c :: replaceAllGo pat repl fuel cs

/-- `command.replaceAll(re, val)` for the compiled pattern of one token. -/
def jsReplaceAll (pat : List RChar) (repl : String) (s : String) : String :=
  match pat with
  | [] => s
  | _ :: _ => String.mk (replaceAllGo pat repl.toList s.toList.length s.toList)

/-- One iteration of `commandParams.forEach(p => …)`: resolve the token and
replace all matches of its spliced regex with the stringified value. -/
def substituteTokenStep (params : JParams) (command : String) (p : String) : String :=
  let val := resolveToken params p
  jsReplaceAll (compileRegex ("\x7b" ++ p ++ "\x7d")) (jsToStringOpt val) command

/-- Full parameter substitution applied to one macro command template
(`ComPort.send`, src/ComPort.ts lines 261–319). -/
def substituteCommand (command : String) (params : JParams) : String :=
  (extractTokens command).foldl (substituteTokenStep params) command

/-! ## Connection state (`ComPort`, src/ComPort.ts)

Fields and their initializers follow the class declaration.  `port` models
the `SerialPort | null` handle by its `isOpen` flag; `readMatch` holds the
active read pattern, modelled extensionally as a `String → Bool` test. -/

inductive PortSt where
  | closed
  | connecting
  | background
  | busy
deriving DecidableEq

structure Handle where
  isOpen : Bool
deriving DecidableEq

abbrev Pattern := String → Bool

structure ComMacro where
  command : String
  response : Pattern

/-- `ComType` (src/ComType.ts): the required `init` macro list is the
`initMacros` field; the remaining `operationId → macros` entries are
`otherMacros`. -/
structure ComType where
  name : String
  baud : Nat
  startupDelay : Nat := 0
  initMacros : List ComMacro
  otherMacros : List (String × List ComMacro) := []

structure ComPortState where
  path : String
  port : Option Handle := none
  readMatch : Option Pattern := none
  readComplete : Bool := false
  buffer : String := ""
  backgroundBuffer : List String := []
  name : Option String := none
  state : PortSt := .closed
  type : Option ComType := none
  lastError : Option String := none
  timeout : Nat := 5000
  lineEnding : String := "\n"

/-! ## `receiveData` (src/ComPort.ts lines 353–405) -/

/-- JS `dataStr.split(/\r?\n/)`: `\r\n` and `\n` separate lines; a lone `\r`
stays inside its line. -/
def splitCRLFAux : List Char → List Char → List (List Char)
  | [], acc => [acc.reverse]
  | '\r' :: '\n' :: rest, acc => acc.reverse :: splitCRLFAux rest []
  | '\n' :: rest, acc => acc.reverse :: splitCRLFAux rest []
  | c :: rest, acc => splitCRLFAux rest (c :: acc)

def splitCRLF (s : String) : List String :=
  (splitCRLFAux s.toList []).map String.mk

/-- Append `s` to the last entry of `bb`, or push it when `bb` is empty
(the incomplete-line merge in `receiveData`). -/
def appendToLast (bb : List String) (s : String) : List String :=
  match bb with
  | [] => [s]
  | [x] => [x ++ s]
  | x :: xs => x :: appendToLast xs s

/-- The background-log append: merge the first line into the last entry, push
the remaining non-blank lines, and push an empty pending entry when the chunk
ends with a line terminator. -/
def backgroundAppend (bb : List String) (dataStr : String) : List String :=
  match splitCRLF dataStr with
  | [] => bb
  | l0 :: rest =>
    let bb1 := appendToLast bb l0
    let bb2 := bb1 ++ rest.filter (fun l => decide (0 < (strTrim l).length))
    bb2 ++ (if strEndsWithChar dataStr '\n' || strEndsWithChar dataStr '\r' then [""] else [])

/-- The size limit: `splice(length - 10, 10)` once the length exceeds 1000,
i.e. drop the 10 entries at the end. -/
def evictIfOver (bb : List String) : List String :=
  if bb.length > 1000 then bb.take (bb.length - 10) else bb

def receiveData (st : ComPortState) (dataStr : String) : ComPortState :=
  match st.state with
  | .background =>
      { st with backgroundBuffer := evictIfOver (backgroundAppend st.backgroundBuffer dataStr) }
  | .busy =>
      match st.readMatch with
      | none =>
          { st with
            lastError := some "State was busy reading data but no read RegExp was found to check for completion."
            state := .background }
      | some pat =>
          let buffer' := st.buffer ++ dataStr
          if pat (strTrim buffer') then
            { st with buffer := buffer', state := .background, readComplete := true }
          else
            { st with buffer := buffer' }
  | _ => st

/-! ## `receiveError` (src/ComPort.ts lines 336–351)

The event carries whether the transport is still open when the handler runs
(`this.port?.isOpen`).  When the error also closed the transport, the handler
sets the state to `closed` and calls `this.close()` un-awaited, whose callback
sees `isOpen = false` and releases the handle. -/

def receiveError (st : ComPortState) (msg : String) (stillOpen : Bool) : ComPortState :=
  match st.port with
  | some _ =>
      if stillOpen then
        { st with port := some ⟨stillOpen⟩, lastError := some msg, state := .background }
      else
        { st with port := none, lastError := some msg, state := .closed }
  | none => { st with lastError := some msg, state := .closed }

/-! ## The read poll loop (`ComPort.read`, src/ComPort.ts lines 109–132)

`read` captures a timestamp, installs the pattern, clears the buffer,
last-error and completion flag, then polls every 100 ms: resolve with the
trimmed buffer once complete; reject with a timeout error once the elapsed
time exceeds `timeout`; reject with `lastError` if one was recorded.  Between
two polls the event loop delivers transport events; `sched (k+1)` lists the
events delivered before poll `k+1`.  The fuel is sufficient by
`pollFromAux_ne_stuck` below, so `.stuck` never occurs. -/

inductive REvent where
  | data : String → REvent
  | error : String → Bool → REvent

def applyEvent (st : ComPortState) : REvent → ComPortState
  | .data s => receiveData st s
  | .error m stillOpen => receiveError st m stillOpen

def processEvents (st : ComPortState) (evs : List REvent) : ComPortState :=
  evs.foldl applyEvent st

def timeoutMessage (t : Nat) (path : String) : String :=
  "Timeout after " ++ toString t ++ "ms while reading from port " ++ path ++ "."

inductive ReadOut where
  | resolved : String → ReadOut
  | timedOut : String → ReadOut
  | errored : String → ReadOut
  | stuck : ReadOut
deriving DecidableEq

def pollFromAux (sched : Nat → List REvent) : Nat → Nat → ComPortState → ReadOut × ComPortState
  | 0, _, st => (.stuck, st)
  | fuel + 1, k, st =>
    if st.readComplete then (.resolved (strTrim st.buffer), st)
    else if st.timeout < 100 * k then (.timedOut (timeoutMessage st.timeout st.path), st)
    else
      match st.lastError with
      | some e => (.errored e, st)
      | none => pollFromAux sched fuel (k + 1) (processEvents st (sched (k + 1)))

/-- The synchronous prefix of `read`: install the pattern, clear the buffer,
the last error and the completion flag. -/
def readInit (st : ComPortState) (pat : Pattern) : ComPortState :=
  { st with readMatch := some pat, buffer := "", lastError := none, readComplete := false }

def runRead (st : ComPortState) (pat : Pattern) (sched : Nat → List REvent) : ReadOut × ComPortState :=
  pollFromAux sched (st.timeout / 100 + 2) 0 (readInit st pat)

/-! ## `write`, `connect`, `close`, `lockPort` -/

/-- The environment supplies the outcome of each transport interaction during
one modelled call: the `open` callback's error, the `write` callback's error
for the `i`-th macro, the events delivered to the `i`-th macro's read loop,
and the `close` callback's error.  Per the transport contract
(`__mocks__/serialport.ts`), closing always leaves `isOpen = false`. -/
structure TransportEnv where
  openErr : Option String := none
  writeErr : Nat → Option String := fun _ => none
  readSched : Nat → Nat → List REvent := fun _ _ => []
  closeErr : Option String := none

def portNotOpenMessage : String :=
  "Port not open. Please open the port via the connect function before attempting to write."

/-- `ComPort.write` (lines 139–155): fails when no open handle; a write error
is recorded in `lastError` and rejected. -/
def writeRun (st : ComPortState) (werr : Option String) : Except String Unit × ComPortState :=
  match st.port with
  | none => (.error portNotOpenMessage, st)
  | some h =>
    if !h.isOpen then (.error portNotOpenMessage, st)
    else
      match werr with
      | some e => (.error e, { st with lastError := some e })
      | none => (.ok (), st)

def noBaudMessage : String :=
  "No baud rate set while trying to connect. Either pass the baud rate to the connect function or set a ComType first."

/-- `ComPort.connect` (lines 68–101): requires a baud or an assigned type;
creates a fresh (not yet open) handle, enters `connecting`, then the open
callback either records the error and reverts to `closed`, or enters
`background` with the handle open. -/
def connectRun (st : ComPortState) (baud : Option Nat) (oerr : Option String) :
    Except String Unit × ComPortState :=
  if baud.isNone && st.type.isNone then (.error noBaudMessage, st)
  else
    let st1 := { st with state := .connecting, port := some ⟨false⟩ }
    match oerr with
    | some e => (.error e, { st1 with state := .closed, lastError := some e })
    | none => (.ok (), { st1 with state := .background, port := some ⟨true⟩ })

/-- `ComPort.close` (lines 162–176): when `port` is `null` no callback is ever
installed and the returned promise never settles (`none`).  Otherwise the
transport close leaves the handle not open, the callback releases the handle
and sets the state to `closed`, and the close error, if any, is rejected. -/
def closeRun (st : ComPortState) (cerr : Option String) :
    Option (Except String Unit × ComPortState) :=
  match st.port with
  | none => none
  | some _ =>
    let hClosed : Handle := ⟨false⟩
    let stA := { st with port := some hClosed }
    let stB := if !hClosed.isOpen then { stA with port := none, state := PortSt.closed } else stA
    match cerr with
    | some e => some (.error e, stB)
    | none => some (.ok (), stB)

def connectWaitMessage : String := "Timeout while waiting for connection to complete."

def lockWaitMessage : String := "Timeout while waiting for port to become available."

/-- `ComPort.lockPort` (lines 186–224), in the single-task interleaving (no
concurrent completion changes the state while this caller polls): `background`
is claimed immediately; `closed` first connects; a state still `connecting`
or still `busy` after the bounded polls fails with the respective timeout. -/
def lockPortRun (st : ComPortState) (env : TransportEnv) : Except String Unit × ComPortState :=
  if st.state = .background then (.ok (), { st with state := .busy })
  else
    match (if st.state = .closed then connectRun st none env.openErr else (.ok (), st)) with
    | (.error e, st1) => (.error e, st1)
    | (.ok _, st1) =>
      if st1.state = .connecting then (.error connectWaitMessage, st1)
      else if st1.state = .busy then (.error lockWaitMessage, st1)
      else (.ok (), { st1 with state := .busy })

/-! ## `send` (src/ComPort.ts lines 233–334) -/

def noMacrosMessage (path : String) : String :=
  "No macros provided to send to com port " ++ path ++ "."

/-- The `for (let macro of macros)` loop: lock, write the substituted
command, read until the macro's response pattern matches. -/
def sendLoop (env : TransportEnv) : List ComMacro → Nat → List String → ComPortState →
    Except String (List String) × ComPortState
  | [], _, acc, st => (.ok acc.reverse, st)
  | m :: rest, i, acc, st =>
    match lockPortRun st env with
    | (.error e, st1) => (.error e, st1)
    | (.ok _, st1) =>
      match writeRun st1 (env.writeErr i) with
      | (.error e, st2) => (.error e, st2)
      | (.ok _, st2) =>
        match runRead st2 m.response (env.readSched i) with
        | (.resolved v, st3) => sendLoop env rest (i + 1) (v :: acc) st3
        | (.timedOut e, st3) => (.error e, st3)
        | (.errored e, st3) => (.error e, st3)
        | (.stuck, st3) => (.error "unreachable: read loop out of fuel", st3)

/-- `ComPort.send` with an explicit macro list: empty lists are rejected;
with `params` every command template is substituted first. -/
def sendRun (st : ComPortState) (ms : List ComMacro) (params : Option JParams)
    (env : TransportEnv) : Except String (List String) × ComPortState :=
  if ms.isEmpty then (.error (noMacrosMessage st.path), st)
  else
    let ms' := match params with
      | some ps => ms.map (fun m => ComMacro.mk (substituteCommand m.command ps) m.response)
      | none => ms
    sendLoop env ms' 0 [] st

/-! ## `setType` (src/ComPort.ts lines 45–59)

`try { connect; sleep(startupDelay); send(init); return readComplete }
finally { await close() }`: the close in the `finally` block runs on every
path; a close rejection replaces the pending outcome.  When `close` never
settles (null handle) the whole call never settles (`none`). -/

def finallyClose (res : Except String Bool) (st : ComPortState) (env : TransportEnv) :
    Option (Except String Bool × ComPortState) :=
  match closeRun st env.closeErr with
  | none => none
  | some (.ok _, st') => some (res, st')
  | some (.error ce, st') => some (.error ce, st')

def setTypeRun (st : ComPortState) (ty : ComType) (env : TransportEnv) :
    Option (Except String Bool × ComPortState) :=
  match connectRun st (some ty.baud) env.openErr with
  | (.error e, st1) => finallyClose (.error e) st1 env
  | (.ok _, st1) =>
    match sendRun st1 ty.initMacros none env with
    | (.error e, st2) => finallyClose (.error e) st2 env
    | (.ok _, st2) =>
      if st2.readComplete then finallyClose (.ok true) { st2 with type := some ty } env
      else finallyClose (.ok false) st2 env

/-! ## `ComManager.getComPort` (src/ComMacro.ts lines 79–98)

Ports are filtered to the requested type name in list order (discovery
order); a numeric selector is only range-checked by `index >= length`, and
the JS array read `typePorts[index]` yields `undefined` (`none`) for a
negative index. -/

def typeFilter (ports : List ComPortState) (typeName : String) : List ComPortState :=
  ports.filter (fun p => match p.type with
    | some t => t.name == typeName
    | none => false)

def indexNotFoundMessage (index : Int) (count : Nat) (typeName : String) : String :=
  "Port with index " ++ toString index ++ " not found. " ++ toString count ++
    " ports found of type " ++ typeName ++ "."

def jsListGet (l : List ComPortState) (i : Int) : Option ComPortState :=
  if i < 0 then none else l.get? i.toNat

def getComPortByIndex (ports : List ComPortState) (typeName : String) (index : Int) :
    Except String (Option ComPortState) :=
  let typePorts := typeFilter ports typeName
  if (typePorts.length : Int) ≤ index then
    .error (indexNotFoundMessage index typePorts.length typeName)
  else
    .ok (jsListGet typePorts index)

def nameNotFoundMessage (nm : String) (typeName : String) : String :=
  "Port with name " ++ nm ++ " not found for type " ++ typeName ++ "."

def getComPortByName (ports : List ComPortState) (typeName : String) (nm : String) :
    Except String ComPortState :=
  let typePorts := typeFilter ports typeName
  match typePorts.find? (fun p => p.name == some nm) with
  | some p => .ok p
  | none => .error (nameNotFoundMessage nm typeName)

/-! ## Helper lemmas about `closeRun` and `finallyClose` -/

theorem closeRun_some_closed : ∀ (st : ComPortState) (cerr : Option String) (r : Except String Unit) (st' : ComPortState),
    closeRun st cerr = some (r, st') → st'.state = .closed ∧ st'.port = none := by
  intro st cerr r st' h
  unfold closeRun at h
  match hp : st.port with
  | none => rw [hp] at h; exact absurd h (by simp)
  | some hdl =>
    rw [hp] at h
    simp only [Bool.not_false, if_pos] at h
    match cerr with
    | some e =>
      simp only [Option.some.injEq, Prod.mk.injEq] at h
      rw [← h.2]
      exact ⟨rfl, rfl⟩
    | none =>
      simp only [Option.some.injEq, Prod.mk.injEq] at h
      rw [← h.2]
      exact ⟨rfl, rfl⟩

theorem closeRun_some_preserves : ∀ (st : ComPortState) (cerr : Option String) (r : Except String Unit) (st' : ComPortState),
    closeRun st cerr = some (r, st') →
      st'.readComplete = st.readComplete ∧ st'.readMatch = st.readMatch ∧
      st'.buffer = st.buffer ∧ st'.type = st.type := by
  intro st cerr r st' h
  unfold closeRun at h
  match hp : st.port with
  | none => rw [hp] at h; exact absurd h (by simp)
  | some hdl =>
    rw [hp] at h
    simp only [Bool.not_false, if_pos] at h
    match cerr with
    | some e =>
      simp only [Option.some.injEq, Prod.mk.injEq] at h
      rw [← h.2]
      exact ⟨rfl, rfl, rfl, rfl⟩
    | none =>
      simp only [Option.some.injEq, Prod.mk.injEq] at h
      rw [← h.2]
      exact ⟨rfl, rfl, rfl, rfl⟩

theorem finallyClose_closed : ∀ (res : Except String Bool) (st : ComPortState) (env : TransportEnv) (s : Except String Bool × ComPortState),
    finallyClose res st env = some s → s.2.state = .closed ∧ s.2.port = none := by
  intro res st env s h
  unfold finallyClose at h
  match hc : closeRun st env.closeErr with
  | none => rw [hc] at h; exact absurd h (by simp)
  | some (.ok u, st') =>
    rw [hc] at h
    simp only [Option.some.injEq] at h
    have := closeRun_some_closed st env.closeErr (.ok u) st' hc
    rw [← h]
    exact this
  | some (.error ce, st') =>
    rw [hc] at h
    simp only [Option.some.injEq] at h
    have := closeRun_some_closed st env.closeErr (.error ce) st' hc
    rw [← h]
    exact this

/-! ## Concrete demonstration fixtures (drawn from the repository's tests) -/

def patResp1 : Pattern := fun s => s == "RESP1"

def macResp1 : ComMacro := ⟨"CMD1", patResp1⟩

def patInitted : Pattern := fun s => s == "INITTED"

def tyMock : ComType := { name := "mock", baud := 9600, initMacros := [⟨"init", patInitted⟩] }

/-- A connected, idle port with a short read timeout (as in the repository's
timeout test). -/
def stIdle : ComPortState :=
  { path := "/dev/mock1", port := some ⟨true⟩, state := .background, timeout := 500 }

/-- A fresh, closed port with a short read timeout. -/
def stFresh : ComPortState := { path := "/dev/mock1", timeout := 500 }

/-- An environment in which the device never responds and every transport
call succeeds. -/
def envSilent : TransportEnv := {}

/-- An environment in which the device answers `INITTED` before the first
poll of each read. -/
def envInitted : TransportEnv :=
  { readSched := fun _ k => if k == 1 then [REvent.data "INITTED"] else [] }

/-- An environment in which the device answers `RESP1` before the first poll
of each read. -/
def envResp1 : TransportEnv :=
  { readSched := fun _ k => if k == 1 then [REvent.data "RESP1"] else [] }

/-- A port in `background` whose log holds 1000 entries: the oldest is `"a"`,
the later 999 are `"b"`. -/
def stFullLog : ComPortState :=
  { path := "/dev/mock1", state := .background,
    backgroundBuffer := "a" :: List.replicate 999 "b" }

/-- Claim C6 params: `\x7buser: \x7baddresses: [\x7bcity: "X"\x7d]\x7d\x7d`. -/
def paramsUser : JParams :=
  [("user", .obj [("addresses", .arr [.obj [("city", .str "X")]])])]

/-- Two classified and one unclassified port, as in the `ComManager` tests. -/
def demoPorts : List ComPortState :=
  [{ path := "/dev/mock1", type := some tyMock },
   { path := "/dev/mock2", type := some tyMock },
   { path := "/dev/tty.Bluetooth-Incoming-Port" }]

/-! ## Claim theorems -/

/-- C1: the claim states that a `send` failing inside the macro-execution
loop leaves the Connection in `background`.  The code does propagate the
error, but contains no recovery path: evaluating the embedding on a send
whose read times out shows the rejection carries the timeout error while the
state remains `busy`, contradicting the claimed `background`.  This also
contradicts the class's own doc comment ("If an error occurs while waiting
for a response, the port will return to the background state"). -/
theorem send_read_timeout_leaves_busy :
    (sendRun stIdle [macResp1] none envSilent).1 =
        .error (timeoutMessage 500 "/dev/mock1") ∧
      (sendRun stIdle [macResp1] none envSilent).2.state = .busy ∧
      PortSt.busy ≠ PortSt.background := by
  refine ⟨rfl, rfl, by simp⟩

/-- C6: the claim states that template `GOTO \x7buser.addresses[0].city\x7d`
resolves to `GOTO X`.  The nested-path walk does resolve the token's value to
`"X"`, but the replacement regex is built from the unescaped token text, so
`[0]` parses as a character class and the pattern never matches the literal
token: the command is returned unchanged. -/
theorem array_token_substitution_fails :
    substituteCommand "GOTO \x7buser.addresses[0].city\x7d" paramsUser =
        "GOTO \x7buser.addresses[0].city\x7d" ∧
      resolveToken paramsUser "user.addresses[0].city" = some (.str "X") := by
  exact ⟨rfl, rfl⟩

/-- C9: when the transport handle is absent (`port` is `null`), `close()`
installs no callback — `this.port?.close(cb)` short-circuits — so the
returned promise never settles. -/
theorem close_null_port_never_settles :
    ∀ (st : ComPortState) (cerr : Option String),
      st.port = none → closeRun st cerr = none := by
  intro st cerr h
  unfold closeRun
  rw [h]

theorem close_null_port_never_settles_witness :
    closeRun stFresh none = none :=
  close_null_port_never_settles stFresh none rfl

/-- C10: a negative index passes the `index >= typePorts.length` check, so
`getComPort` does not fail with a not-found error; the JS array read yields
`undefined` instead of a Connection. -/
theorem getComPort_negative_index_no_error :
    ∀ (ports : List ComPortState) (typeName : String) (index : Int),
      index < 0 → getComPortByIndex ports typeName index = .ok none := by
  intro ports typeName index h
  unfold getComPortByIndex
  rw [if_neg (by omega : ¬ ((typeFilter ports typeName).length : Int) ≤ index)]
  unfold jsListGet
  rw [if_pos h]

theorem getComPort_negative_index_no_error_witness :
    getComPortByIndex demoPorts "mock" (-1) = .ok none :=
  getComPort_negative_index_no_error demoPorts "mock" (-1) (by decide)

/-- C8: with an index selector, `getComPort` filters the connections to the
profile name in discovery order; an index at or beyond the count fails with a
not-found error whose message names both the requested index and the count,
and an in-range index returns the element at that position of the filtered
list. -/
theorem getComPort_index_spec :
    ∀ (ports : List ComPortState) (typeName : String) (index : Int),
      (((typeFilter ports typeName).length : Int) ≤ index →
        getComPortByIndex ports typeName index =
          .error (indexNotFoundMessage index (typeFilter ports typeName).length typeName)) ∧
      (0 ≤ index → index < ((typeFilter ports typeName).length : Int) →
        getComPortByIndex ports typeName index =
            .ok ((typeFilter ports typeName).get? index.toNat) ∧
          ((typeFilter ports typeName).get? index.toNat).isSome = true) := by
  intro ports typeName index
  constructor
  · intro h
    unfold getComPortByIndex
    rw [if_pos h]
  · intro h0 hlt
    constructor
    · unfold getComPortByIndex
      rw [if_neg (by omega)]
      unfold jsListGet
      rw [if_neg (by omega)]
    · have hn : index.toNat < (typeFilter ports typeName).length := by omega
      rw [List.get?_eq_get hn]
      rfl

theorem getComPort_index_spec_witness :
    getComPortByIndex demoPorts "mock" 99 =
        .error (indexNotFoundMessage 99 (typeFilter demoPorts "mock").length "mock") ∧
      getComPortByIndex demoPorts "mock" 1 =
        .ok ((typeFilter demoPorts "mock").get? (Int.toNat 1)) := by
  refine ⟨(getComPort_index_spec demoPorts "mock" 99).1 (by decide),
    ((getComPort_index_spec demoPorts "mock" 1).2 (by decide) (by decide)).1⟩

set_option maxRecDepth 100000 in
/-- C2: the claim states the 10 oldest entries are evicted and the log never
exceeds 1000 entries after eviction.  The code's `splice(length - 10, 10)`
removes the 10 entries at the END: starting from a full log whose oldest
entry is `"a"`, appending a chunk carrying a new line `"B"` leaves the oldest
entry in place and discards the just-appended data. -/
theorem backgroundLog_evicts_newest_not_oldest :
    ((receiveData stFullLog "A\nB").backgroundBuffer.length = 991) ∧
      ((receiveData stFullLog "A\nB").backgroundBuffer.head? = some "a") ∧
      ("B" ∉ (receiveData stFullLog "A\nB").backgroundBuffer) := by
  refine ⟨by decide, by decide, by decide⟩

/-- C2 (amended): in `background`, a `receiveData` chunk is line-split and
appended to the log (first line merged into the last entry, blank interior
lines skipped); when the appended log exceeds 1000 entries, the 10 entries at
its END (the newest) are removed once — the result is a prefix of the
appended log, of length `appended - 10`, which can still exceed 1000 when a
single chunk adds more than 10 entries beyond the capacity. -/
theorem backgroundLog_eviction_drops_tail :
    ∀ (st : ComPortState) (chunk : String), st.state = .background →
      (∃ rest, backgroundAppend st.backgroundBuffer chunk =
          (receiveData st chunk).backgroundBuffer ++ rest) ∧
      (receiveData st chunk).backgroundBuffer.length =
        (if 1000 < (backgroundAppend st.backgroundBuffer chunk).length
         then (backgroundAppend st.backgroundBuffer chunk).length - 10
         else (backgroundAppend st.backgroundBuffer chunk).length) := by
  intro st chunk h
  have hbb : (receiveData st chunk).backgroundBuffer =
      evictIfOver (backgroundAppend st.backgroundBuffer chunk) := by
    unfold receiveData
    rw [h]
  rw [hbb]
  unfold evictIfOver
  by_cases hlen : (backgroundAppend st.backgroundBuffer chunk).length > 1000
  · rw [if_pos hlen, if_pos hlen]
    constructor
    · exact ⟨(backgroundAppend st.backgroundBuffer chunk).drop
        ((backgroundAppend st.backgroundBuffer chunk).length - 10),
        (List.take_append_drop _ _).symm⟩
    · rw [List.length_take]
      omega
  · rw [if_neg hlen, if_neg hlen]
    exact ⟨⟨[], by simp⟩, rfl⟩

theorem backgroundLog_eviction_drops_tail_witness :
    (∃ rest, backgroundAppend stFullLog.backgroundBuffer "A\nB" =
        (receiveData stFullLog "A\nB").backgroundBuffer ++ rest) ∧
      (receiveData stFullLog "A\nB").backgroundBuffer.length =
        (if 1000 < (backgroundAppend stFullLog.backgroundBuffer "A\nB").length
         then (backgroundAppend stFullLog.backgroundBuffer "A\nB").length - 10
         else (backgroundAppend stFullLog.backgroundBuffer "A\nB").length) :=
  backgroundLog_eviction_drops_tail stFullLog "A\nB" rfl


/-! ## Read-loop invariants -/

/-- Invariant carried by a read session for pattern `pat`: the pattern stays
installed, and once the completion flag is set the pattern matched the
trimmed accumulated buffer (and the state already left `busy`). -/
def ReadInv (pat : Pattern) (st : ComPortState) : Prop :=
  st.readMatch = some pat ∧
    (st.readComplete = true → (pat (strTrim st.buffer) = true ∧ st.state ≠ .busy))

theorem receiveData_inv (pat : Pattern) (st : ComPortState) (d : String) :
    ReadInv pat st → ReadInv pat (receiveData st d) := by
  intro h
  obtain ⟨h1, h2⟩ := h
  unfold receiveData
  cases hst : st.state
  case closed => exact ⟨h1, h2⟩
  case connecting => exact ⟨h1, h2⟩
  case background =>
    refine ⟨h1, fun hc => ?_⟩
    rcases h2 hc with ⟨hp, -⟩
    exact ⟨hp, by simp⟩
  case busy =>
    rw [h1]
    dsimp only
    by_cases hp : pat (strTrim (st.buffer ++ d)) = true
    · rw [if_pos hp]
      exact ⟨rfl, fun _ => ⟨hp, by simp⟩⟩
    · rw [if_neg hp]
      refine ⟨rfl, fun hc => ?_⟩
      rcases h2 hc with ⟨-, hnb⟩
      exact absurd hst hnb

theorem receiveError_inv (pat : Pattern) (st : ComPortState) (m : String) (b : Bool) :
    ReadInv pat st → ReadInv pat (receiveError st m b) := by
  intro h
  obtain ⟨h1, h2⟩ := h
  unfold receiveError
  cases hp : st.port
  case none =>
    exact ⟨h1, fun hc => ⟨(h2 hc).1, by simp⟩⟩
  case some hdl =>
    dsimp only
    by_cases hb : b = true
    · rw [if_pos hb]
      exact ⟨h1, fun hc => ⟨(h2 hc).1, by simp⟩⟩
    · rw [if_neg hb]
      exact ⟨h1, fun hc => ⟨(h2 hc).1, by simp⟩⟩

theorem applyEvent_inv (pat : Pattern) (st : ComPortState) (e : REvent) :
    ReadInv pat st → ReadInv pat (applyEvent st e) := by
  cases e with
  | data d => exact receiveData_inv pat st d
  | error m b => exact receiveError_inv pat st m b

theorem processEvents_inv (pat : Pattern) :
    ∀ (evs : List REvent) (st : ComPortState),
      ReadInv pat st → ReadInv pat (processEvents st evs) := by
  intro evs
  induction evs with
  | nil => intro st h; exact h
  | cons e rest ih =>
    intro st h
    exact ih (applyEvent st e) (applyEvent_inv pat st e h)

theorem receiveData_fields (st : ComPortState) (d : String) :
    (receiveData st d).timeout = st.timeout ∧ (receiveData st d).path = st.path := by
  unfold receiveData
  cases hst : st.state
  case closed => exact ⟨rfl, rfl⟩
  case connecting => exact ⟨rfl, rfl⟩
  case background => exact ⟨rfl, rfl⟩
  case busy =>
    cases hm : st.readMatch
    case none => exact ⟨rfl, rfl⟩
    case some pat =>
      dsimp only
      by_cases hp : pat (strTrim (st.buffer ++ d)) = true
      · rw [if_pos hp]; exact ⟨rfl, rfl⟩
      · rw [if_neg hp]; exact ⟨rfl, rfl⟩

theorem receiveError_fields (st : ComPortState) (m : String) (b : Bool) :
    (receiveError st m b).timeout = st.timeout ∧ (receiveError st m b).path = st.path := by
  unfold receiveError
  cases hp : st.port
  case none => exact ⟨rfl, rfl⟩
  case some hdl =>
    dsimp only
    by_cases hb : b = true
    · rw [if_pos hb]; exact ⟨rfl, rfl⟩
    · rw [if_neg hb]; exact ⟨rfl, rfl⟩

theorem processEvents_fields :
    ∀ (evs : List REvent) (st : ComPortState),
      (processEvents st evs).timeout = st.timeout ∧
        (processEvents st evs).path = st.path := by
  intro evs
  induction evs with
  | nil => intro st; exact ⟨rfl, rfl⟩
  | cons e rest ih =>
    intro st
    have h1 : (applyEvent st e).timeout = st.timeout ∧ (applyEvent st e).path = st.path := by
      cases e with
      | data d => exact receiveData_fields st d
      | error m b => exact receiveError_fields st m b
    have h2 := ih (applyEvent st e)
    exact ⟨h2.1.trans h1.1, h2.2.trans h1.2⟩

theorem pollFromAux_spec (sched : Nat → List REvent) (pat : Pattern) :
    ∀ (fuel k : Nat) (st : ComPortState) (ro : ReadOut) (stf : ComPortState),
      ReadInv pat st → pollFromAux sched fuel k st = (ro, stf) →
      (ReadInv pat stf ∧ stf.timeout = st.timeout ∧ stf.path = st.path ∧
        (∀ v, ro = .resolved v →
          stf.readComplete = true ∧ v = strTrim stf.buffer ∧ pat v = true) ∧
        (∀ m, ro = .timedOut m →
          m = timeoutMessage st.timeout st.path ∧ stf.readComplete = false) ∧
        (∀ e, ro = .errored e → stf.lastError = some e ∧ stf.readComplete = false)) := by
  intro fuel
  induction fuel with
  | zero =>
    intro k st ro stf hInv h
    simp only [pollFromAux] at h
    injection h with h1 h2
    subst h1
    subst h2
    refine ⟨hInv, rfl, rfl, ?_, ?_, ?_⟩
    · intro v hv; exact (nomatch hv)
    · intro m hm; exact (nomatch hm)
    · intro e he; exact (nomatch he)
  | succ fuel ih =>
    intro k st ro stf hInv h
    simp only [pollFromAux] at h
    by_cases hrc : st.readComplete = true
    · rw [if_pos hrc] at h
      injection h with h1 h2
      subst h1
      subst h2
      refine ⟨hInv, rfl, rfl, ?_, ?_, ?_⟩
      · intro v hv
        have hveq := ReadOut.resolved.inj hv
        refine ⟨hrc, hveq.symm, ?_⟩
        rw [← hveq]
        exact (hInv.2 hrc).1
      · intro m hm; exact (nomatch hm)
      · intro e he; exact (nomatch he)
    · rw [if_neg hrc] at h
      have hrcf : st.readComplete = false := by
        cases hb : st.readComplete
        · rfl
        · exact absurd hb hrc
      by_cases htm : st.timeout < 100 * k
      · rw [if_pos htm] at h
        injection h with h1 h2
        subst h1
        subst h2
        refine ⟨hInv, rfl, rfl, ?_, ?_, ?_⟩
        · intro v hv; exact (nomatch hv)
        · intro m hm
          exact ⟨(ReadOut.timedOut.inj hm).symm, hrcf⟩
        · intro e he; exact (nomatch he)
      · rw [if_neg htm] at h
        cases hle : st.lastError with
        | some e0 =>
          rw [hle] at h
          injection h with h1 h2
          subst h1
          subst h2
          refine ⟨hInv, rfl, rfl, ?_, ?_, ?_⟩
          · intro v hv; exact (nomatch hv)
          · intro m hm; exact (nomatch hm)
          · intro e he
            rw [← ReadOut.errored.inj he]
            exact ⟨hle, hrcf⟩
        | none =>
          rw [hle] at h
          have hInv' := processEvents_inv pat (sched (k + 1)) st hInv
          have hfields := processEvents_fields (sched (k + 1)) st
          have hrec := ih (k + 1) (processEvents st (sched (k + 1))) ro stf hInv' h
          refine ⟨hrec.1, hrec.2.1.trans hfields.1, hrec.2.2.1.trans hfields.2,
            hrec.2.2.2.1, ?_, hrec.2.2.2.2.2⟩
          intro m hm
          have hx := hrec.2.2.2.2.1 m hm
          rw [hfields.1, hfields.2] at hx
          exact hx

theorem pollFromAux_ne_stuck (sched : Nat → List REvent) :
    ∀ (fuel k : Nat) (st : ComPortState),
      st.timeout < 100 * k + 100 * fuel →
        (pollFromAux sched (fuel + 1) k st).1 ≠ .stuck := by
  intro fuel
  induction fuel with
  | zero =>
    intro k st hlt
    simp only [pollFromAux]
    by_cases hrc : st.readComplete = true
    · rw [if_pos hrc]; simp
    · rw [if_neg hrc, if_pos (by omega : st.timeout < 100 * k)]
      simp
  | succ fuel ih =>
    intro k st hlt
    simp only [pollFromAux]
    by_cases hrc : st.readComplete = true
    · rw [if_pos hrc]; simp
    · rw [if_neg hrc]
      by_cases htm : st.timeout < 100 * k
      · rw [if_pos htm]; simp
      · rw [if_neg htm]
        cases hle : st.lastError with
        | some e0 => simp
        | none =>
          have hfields := processEvents_fields (sched (k + 1)) st
          exact ih (k + 1) (processEvents st (sched (k + 1)))
            (by rw [hfields.1]; omega)

theorem runRead_spec (st : ComPortState) (pat : Pattern) (sched : Nat → List REvent)
    (ro : ReadOut) (stf : ComPortState) (h : runRead st pat sched = (ro, stf)) :
    ro ≠ .stuck ∧ stf.readMatch = some pat ∧ stf.timeout = st.timeout ∧ stf.path = st.path ∧
      (∀ v, ro = .resolved v →
        stf.readComplete = true ∧ v = strTrim stf.buffer ∧ pat v = true) ∧
      (∀ m, ro = .timedOut m →
        m = timeoutMessage st.timeout st.path ∧ stf.readComplete = false) ∧
      (∀ e, ro = .errored e → stf.lastError = some e ∧ stf.readComplete = false) := by
  have hInv : ReadInv pat (readInit st pat) := ⟨rfl, by simp [readInit]⟩
  unfold runRead at h
  have hspec := pollFromAux_spec sched pat (st.timeout / 100 + 2) 0 (readInit st pat)
    ro stf hInv h
  have hstuck0 := pollFromAux_ne_stuck sched (st.timeout / 100 + 1) 0 (readInit st pat)
    (by show st.timeout < 100 * 0 + 100 * (st.timeout / 100 + 1); omega)
  have hstuck1 : (pollFromAux sched (st.timeout / 100 + 2) 0 (readInit st pat)).1 ≠ .stuck :=
    hstuck0
  rw [h] at hstuck1
  exact ⟨hstuck1, hspec.1.1, hspec.2.1, hspec.2.2.1, hspec.2.2.2.1, hspec.2.2.2.2.1,
    hspec.2.2.2.2.2⟩

/-- C7: `read(pattern)` resolves with the trimmed accumulated buffer exactly
when the completion flag was set — in which case the pattern matched that
trimmed buffer; it rejects with the timeout error naming the configured
timeout and the port path when the elapsed polls exceeded `timeout` (the
completion flag still unset); it rejects with the recorded error when
`lastError` became non-null after the read began (`read` clears it first);
and `receiveData` in `busy` tests the pattern against the whole accumulated
buffer `buffer ++ chunk`, not only the newest chunk.  The poll loop always
settles within its fuel (never `.stuck`). -/
theorem read_poll_loop_spec :
    ∀ (st : ComPortState) (pat : Pattern) (sched : Nat → List REvent)
      (ro : ReadOut) (stf : ComPortState), runRead st pat sched = (ro, stf) →
      (ro ≠ .stuck ∧
        (∀ v, ro = .resolved v →
          stf.readComplete = true ∧ v = strTrim stf.buffer ∧ pat v = true) ∧
        (∀ m, ro = .timedOut m →
          m = timeoutMessage st.timeout st.path ∧ stf.readComplete = false) ∧
        (∀ e, ro = .errored e → stf.lastError = some e ∧ stf.readComplete = false) ∧
        (∀ (st' : ComPortState) (c : String), st'.state = .busy → st'.readMatch = some pat →
          (receiveData st' c).readComplete =
            (st'.readComplete || pat (strTrim (st'.buffer ++ c))))) := by
  intro st pat sched ro stf h
  have hs := runRead_spec st pat sched ro stf h
  refine ⟨hs.1, hs.2.2.2.2.1, hs.2.2.2.2.2.1, hs.2.2.2.2.2.2, ?_⟩
  intro st' c hstate hmatch
  unfold receiveData
  rw [hstate, hmatch]
  dsimp only
  by_cases hp : pat (strTrim (st'.buffer ++ c)) = true
  · rw [if_pos hp, hp, Bool.or_true]
  · rw [if_neg hp]
    have hpf : pat (strTrim (st'.buffer ++ c)) = false := by
      cases hb : pat (strTrim (st'.buffer ++ c))
      · rfl
      · exact absurd hb hp
    rw [hpf, Bool.or_false]

/-- A port mid-command (`busy`, as `lockPort` leaves it) used to exercise the
resolution branch of the read loop. -/
def stBusyDemo : ComPortState :=
  { path := "/dev/mock1", port := some ⟨true⟩, state := .busy, timeout := 500 }

def schedResp1 : Nat → List REvent :=
  fun k => if k == 1 then [REvent.data "RESP1"] else []

theorem read_poll_loop_spec_witness : patResp1 "RESP1" = true :=
  ((read_poll_loop_spec stBusyDemo patResp1 schedResp1
    (ReadOut.resolved "RESP1") (runRead stBusyDemo patResp1 schedResp1).2
    rfl).2.1 "RESP1" rfl).2.2

/-! ## The `send` macro loop: a successful run ends with a matched read -/

theorem sendLoop_ok_spec (env : TransportEnv) :
    ∀ (ms : List ComMacro) (i : Nat) (acc : List String) (st : ComPortState)
      (rs : List String) (st' : ComPortState),
      sendLoop env ms i acc st = (.ok rs, st') → ms ≠ [] →
      st'.readComplete = true ∧
        ∃ p, st'.readMatch = some p ∧ p (strTrim st'.buffer) = true := by
  intro ms
  induction ms with
  | nil => intro i acc st rs st' h hne; exact absurd rfl hne
  | cons m rest ih =>
    intro i acc st rs st' h _
    simp only [sendLoop] at h
    rcases hlk : lockPortRun st env with ⟨lr, st1⟩
    rw [hlk] at h
    cases lr with
    | error e => exact (nomatch h)
    | ok u =>
      rcases hw : writeRun st1 (env.writeErr i) with ⟨wr, st2⟩
      try dsimp only at h
      rw [hw] at h
      try dsimp only at h
      cases wr with
      | error e => exact (nomatch h)
      | ok u2 =>
        rcases hr : runRead st2 m.response (env.readSched i) with ⟨ro, st3⟩
        try dsimp only at h
        rw [hr] at h
        try dsimp only at h
        cases ro with
        | timedOut e => exact (nomatch h)
        | errored e => exact (nomatch h)
        | stuck => exact (nomatch h)
        | resolved v =>
          rcases hrest : rest with _ | ⟨m2, rest2⟩
          · subst hrest
            simp only [sendLoop] at h
            injection h with h1 h2
            subst h2
            have hspec := runRead_spec st2 m.response (env.readSched i) (.resolved v) st3 hr
            have hres := hspec.2.2.2.2.1 v rfl
            exact ⟨hres.1, m.response, hspec.2.1, by rw [← hres.2.1]; exact hres.2.2⟩
          · subst hrest
            exact ih (i + 1) (v :: acc) st3 rs st' h (by simp)

theorem sendRun_ok_spec (st : ComPortState) (ms : List ComMacro) (env : TransportEnv)
    (rs : List String) (st' : ComPortState)
    (h : sendRun st ms none env = (.ok rs, st')) :
    st'.readComplete = true ∧
      ∃ p, st'.readMatch = some p ∧ p (strTrim st'.buffer) = true := by
  unfold sendRun at h
  by_cases hemp : ms.isEmpty = true
  · rw [if_pos hemp] at h
    exact (nomatch h)
  · rw [if_neg hemp] at h
    refine sendLoop_ok_spec env ms 0 [] st rs st' h ?_
    intro hnil
    rw [hnil] at hemp
    exact hemp rfl

/-! ## `setType` outcomes -/

theorem finallyClose_cases :
    ∀ (res : Except String Bool) (st : ComPortState) (env : TransportEnv)
      (s : Except String Bool × ComPortState), finallyClose res st env = some s →
      (∃ r, closeRun st env.closeErr = some (r, s.2)) ∧
        (s.1 = res ∨ ∃ ce, s.1 = .error ce) := by
  intro res st env s h
  unfold finallyClose at h
  match hc : closeRun st env.closeErr with
  | none => rw [hc] at h; exact (nomatch h)
  | some (.ok u, st') =>
    rw [hc] at h
    injection h with h1
    have h2 : s.2 = st' := by rw [← h1]
    have h3 : s.1 = res := by rw [← h1]
    exact ⟨⟨.ok u, by rw [h2]⟩, Or.inl h3⟩
  | some (.error ce, st') =>
    rw [hc] at h
    injection h with h1
    have h2 : s.2 = st' := by rw [← h1]
    have h3 : s.1 = Except.error ce := by rw [← h1]
    exact ⟨⟨.error ce, by rw [h2]⟩, Or.inr ⟨ce, h3⟩⟩

/-- C3 (amended): `classify` (`setType`) resolves `true` only when the init
macro's response matched — the completion flag is set and the installed
pattern accepted the trimmed buffer; it never resolves `false`: a read
timeout (like a connect or write failure) makes the returned promise reject
with the error instead, and the dead `return false` branch would require a
completed `send` with the completion flag unset, which cannot happen. -/
theorem setType_never_resolves_false :
    ∀ (st : ComPortState) (ty : ComType) (env : TransportEnv)
      (s : Except String Bool × ComPortState), setTypeRun st ty env = some s →
      s.1 ≠ .ok false ∧
        (s.1 = .ok true → s.2.readComplete = true ∧
          ∃ p, s.2.readMatch = some p ∧ p (strTrim s.2.buffer) = true) := by
  intro st ty env s h
  unfold setTypeRun at h
  rcases hc : connectRun st (some ty.baud) env.openErr with ⟨cr, st1⟩
  rw [hc] at h
  cases cr with
  | error e =>
    have hfc := finallyClose_cases (.error e) st1 env s h
    rcases hfc.2 with h1 | ⟨ce, h1⟩
    · rw [h1]; exact ⟨by simp, by simp⟩
    · rw [h1]; exact ⟨by simp, by simp⟩
  | ok u =>
    rcases hs : sendRun st1 ty.initMacros none env with ⟨sr, st2⟩
    try dsimp only at h
    rw [hs] at h
    try dsimp only at h
    cases sr with
    | error e =>
      have hfc := finallyClose_cases (.error e) st2 env s h
      rcases hfc.2 with h1 | ⟨ce, h1⟩
      · rw [h1]; exact ⟨by simp, by simp⟩
      · rw [h1]; exact ⟨by simp, by simp⟩
    | ok rs =>
      try dsimp only at h
      have hsr := sendRun_ok_spec st1 ty.initMacros env rs st2 hs
      rw [if_pos hsr.1] at h
      have hfc := finallyClose_cases (.ok true) { st2 with type := some ty } env s h
      obtain ⟨⟨r, hcl⟩, hdisj⟩ := hfc
      have hpres := closeRun_some_preserves { st2 with type := some ty } env.closeErr r s.2 hcl
      constructor
      · rcases hdisj with h1 | ⟨ce, h1⟩
        · rw [h1]; simp
        · rw [h1]; simp
      · intro _
        obtain ⟨p, hp1, hp2⟩ := hsr.2
        refine ⟨?_, p, ?_, ?_⟩
        · rw [hpres.1]; exact hsr.1
        · rw [hpres.2.1]; exact hp1
        · rw [hpres.2.2.1]; exact hp2

/-- C3 counterexample to the claim as stated: with a device that never
responds, `setType` does not resolve `false` — the evaluation shows the
returned promise rejects with the read-timeout error. -/
theorem setType_timeout_rejects_not_false :
    (setTypeRun stFresh tyMock envSilent).map Prod.fst =
        some (.error (timeoutMessage 500 "/dev/mock1")) ∧
      (Except.error (timeoutMessage 500 "/dev/mock1") : Except String Bool) ≠ .ok false := by
  exact ⟨rfl, by simp⟩

theorem setType_never_resolves_false_witness :
    (setTypeRun stFresh tyMock envInitted).elim False (fun s => s.1 ≠ .ok false) := by
  obtain ⟨s, hs⟩ : ∃ s, setTypeRun stFresh tyMock envInitted = some s := ⟨_, rfl⟩
  rw [hs]
  exact (setType_never_resolves_false stFresh tyMock envInitted s hs).1

/-- C4: whenever `classify` (`setType`) completes — probe matched, read timed
out, write failed, or open failed — the guaranteed-cleanup `finally` block
has closed the Connection: the state is `closed` and no transport handle
remains. -/
theorem setType_always_closes :
    ∀ (st : ComPortState) (ty : ComType) (env : TransportEnv)
      (s : Except String Bool × ComPortState), setTypeRun st ty env = some s →
      s.2.state = .closed ∧ s.2.port = none := by
  intro st ty env s h
  unfold setTypeRun at h
  rcases hc : connectRun st (some ty.baud) env.openErr with ⟨cr, st1⟩
  rw [hc] at h
  cases cr with
  | error e =>
    have hfc := finallyClose_cases (.error e) st1 env s h
    obtain ⟨⟨r, hcl⟩, -⟩ := hfc
    exact closeRun_some_closed st1 env.closeErr r s.2 hcl
  | ok u =>
    rcases hs : sendRun st1 ty.initMacros none env with ⟨sr, st2⟩
    try dsimp only at h
    rw [hs] at h
    try dsimp only at h
    cases sr with
    | error e =>
      have hfc := finallyClose_cases (.error e) st2 env s h
      obtain ⟨⟨r, hcl⟩, -⟩ := hfc
      exact closeRun_some_closed st2 env.closeErr r s.2 hcl
    | ok rs =>
      try dsimp only at h
      by_cases hrc : st2.readComplete = true
      · rw [if_pos hrc] at h
        have hfc := finallyClose_cases (.ok true) { st2 with type := some ty } env s h
        obtain ⟨⟨r, hcl⟩, -⟩ := hfc
        exact closeRun_some_closed { st2 with type := some ty } env.closeErr r s.2 hcl
      · rw [if_neg hrc] at h
        have hfc := finallyClose_cases (.ok false) st2 env s h
        obtain ⟨⟨r, hcl⟩, -⟩ := hfc
        exact closeRun_some_closed st2 env.closeErr r s.2 hcl

theorem setType_always_closes_witness :
    (setTypeRun stFresh tyMock envInitted).elim False
      (fun s => s.2.state = .closed ∧ s.2.port = none) := by
  obtain ⟨s, hs⟩ : ∃ s, setTypeRun stFresh tyMock envInitted = some s := ⟨_, rfl⟩
  rw [hs]
  exact setType_always_closes stFresh tyMock envInitted s hs

/-! ## Literal substitution of a plain token -/

theorem charBeq_false {a b : Char} (h : ¬(a = b)) : (a == b) = false := by
  cases hb : a == b
  · rfl
  · exact absurd (eq_of_beq hb) h

theorem contains_false_of_forall_ne :
    ∀ (l : List Char) (a : Char), (∀ c ∈ l, ¬(c = a)) → l.contains a = false := by
  intro l
  induction l with
  | nil => intro a h; rfl
  | cons c rest ih =>
    intro a h
    have hac : (a == c) = false :=
      charBeq_false (fun he => h c (List.mem_cons_self c rest) he.symm)
    simp only [List.contains, List.elem, hac]
    exact ih a (fun c' hc' => h c' (List.mem_cons_of_mem _ hc'))

theorem extractTokensGo_none_nil :
    ∀ (l : List Char), (∀ c ∈ l, ¬(c = '{')) → extractTokensGo none l = [] := by
  intro l
  induction l with
  | nil => intro h; rfl
  | cons c rest ih =>
    intro h
    have hb : (c == '{') = false := charBeq_false (h c (List.mem_cons_self c rest))
    simp only [extractTokensGo, hb]
    exact ih (fun c' hc' => h c' (List.mem_cons_of_mem _ hc'))

theorem extractTokensGo_none_append :
    ∀ (pre rest : List Char), (∀ c ∈ pre, ¬(c = '{')) →
      extractTokensGo none (pre ++ rest) = extractTokensGo none rest := by
  intro pre
  induction pre with
  | nil => intro rest h; rfl
  | cons c pre' ih =>
    intro rest h
    have hb : (c == '{') = false := charBeq_false (h c (List.mem_cons_self c pre'))
    simp only [List.cons_append, extractTokensGo, hb]
    exact ih rest (fun c' hc' => h c' (List.mem_cons_of_mem _ hc'))

theorem extractTokensGo_some_cons (acc : List Char) (c : Char) (rest : List Char) :
    extractTokensGo (some acc) (c :: rest) =
      (if c == '}' then
        (if acc.isEmpty then extractTokensGo none rest
         else String.mk acc.reverse :: extractTokensGo none rest)
       else extractTokensGo (some (c :: acc)) rest) := rfl

theorem extractTokensGo_some_capture :
    ∀ (t acc post : List Char), (∀ c ∈ t, ¬(c = '}')) →
      extractTokensGo (some acc) (t ++ '}' :: post) =
        (if (t.reverse ++ acc).isEmpty then extractTokensGo none post
         else String.mk (t.reverse ++ acc).reverse :: extractTokensGo none post) := by
  intro t
  induction t with
  | nil =>
    intro acc post _
    simp only [List.nil_append, List.reverse_nil, extractTokensGo]
    rw [if_pos (by rfl : ('}' == '}') = true)]
  | cons c t' ih =>
    intro acc post h
    have hb : (c == '}') = false := charBeq_false (h c (List.mem_cons_self c t'))
    show extractTokensGo (some acc) (c :: (t' ++ '}' :: post)) = _
    rw [extractTokensGo_some_cons, hb]
    simp only [Bool.false_eq_true, if_false]
    refine (ih (c :: acc) post (fun c' hc' => h c' (List.mem_cons_of_mem _ hc'))).trans ?_
    have hshape : t'.reverse ++ (c :: acc) = (c :: t').reverse ++ acc := by
      simp [List.reverse_cons, List.append_assoc]
    rw [hshape]

theorem extractTokens_single :
    ∀ (pre t post : List Char),
      (∀ c ∈ pre, ¬(c = '{')) → (∀ c ∈ t, ¬(c = '}')) → t ≠ [] →
      (∀ c ∈ post, ¬(c = '{')) →
      extractTokensGo none (pre ++ '{' :: (t ++ '}' :: post)) = [String.mk t] := by
  intro pre t post hpre ht htne hpost
  rw [extractTokensGo_none_append pre _ hpre]
  simp only [extractTokensGo]
  rw [if_pos (by rfl : ('{' == '{') = true)]
  rw [extractTokensGo_some_capture t [] post ht]
  have hemp : (t.reverse ++ []).isEmpty = false := by
    rw [List.append_nil]
    cases t with
    | nil => exact absurd rfl htne
    | cons x xs =>
      rw [List.reverse_cons]
      rcases hxe : xs.reverse with _ | ⟨a, as⟩
      · rfl
      · rfl
  rw [if_neg (by rw [hemp]; simp)]
  rw [extractTokensGo_none_nil post hpost]
  simp

theorem compileRegexGo_lits :
    ∀ (l : List Char), (∀ c ∈ l, ¬(c = '[') ∧ ¬(c = '.')) →
      compileRegexGo none l = l.map RChar.lit := by
  intro l
  induction l with
  | nil => intro h; rfl
  | cons c rest ih =>
    intro h
    have hb1 : (c == '[') = false := charBeq_false (h c (List.mem_cons_self c rest)).1
    have hb2 : (c == '.') = false := charBeq_false (h c (List.mem_cons_self c rest)).2
    simp only [compileRegexGo, hb1, hb2, Bool.false_eq_true, if_false, List.map]
    rw [ih (fun c' hc' => h c' (List.mem_cons_of_mem _ hc'))]

theorem matchAt_lits_append :
    ∀ (l s : List Char), matchAt (l.map RChar.lit) (l ++ s) = some s := by
  intro l
  induction l with
  | nil => intro s; rfl
  | cons c l' ih =>
    intro s
    simp only [List.map, List.cons_append, matchAt, rcharMatch]
    rw [if_pos (beq_self_eq_true c)]
    exact ih s

theorem replaceAllGo_cons (p0 : RChar) (ps : List RChar) (repl : List Char) (f : Nat)
    (c : Char) (cs : List Char) :
    replaceAllGo (p0 :: ps) repl (f + 1) (c :: cs) =
      (match matchAt (p0 :: ps) (c :: cs) with
       | some rest => repl ++ replaceAllGo (p0 :: ps) repl f rest
       | none => c :: replaceAllGo (p0 :: ps) repl f cs) := rfl

theorem replaceAllGo_not_open :
    ∀ (s : List Char) (fuel : Nat) (ps : List RChar) (repl : List Char),
      (∀ c ∈ s, ¬(c = '{')) → replaceAllGo (RChar.lit '{' :: ps) repl fuel s = s := by
  intro s
  induction s with
  | nil => intro fuel ps repl _; cases fuel <;> rfl
  | cons c cs ih =>
    intro fuel ps repl h
    cases fuel with
    | zero => rfl
    | succ f =>
      have hm : matchAt (RChar.lit '{' :: ps) (c :: cs) = none := by
        simp only [matchAt, rcharMatch]
        rw [if_neg (by
          rw [charBeq_false (fun he => h c (List.mem_cons_self c cs) he.symm)]
          simp)]
      rw [replaceAllGo_cons, hm]
      rw [ih f ps repl (fun c' hc' => h c' (List.mem_cons_of_mem _ hc'))]

theorem replaceAllGo_single :
    ∀ (u post repl : List Char), (∀ c ∈ post, ¬(c = '{')) →
      ∀ (pre : List Char) (fuel : Nat), (∀ c ∈ pre, ¬(c = '{')) →
        (pre ++ '{' :: u ++ post).length ≤ fuel →
        replaceAllGo (RChar.lit '{' :: u.map RChar.lit) repl fuel (pre ++ '{' :: u ++ post) =
          pre ++ repl ++ post := by
  intro u post repl hpost pre
  induction pre with
  | nil =>
    intro fuel _ hlen
    cases fuel with
    | zero => simp at hlen
    | succ f =>
      have hm : matchAt (RChar.lit '{' :: u.map RChar.lit) ('{' :: (u ++ post)) = some post := by
        have h0 := matchAt_lits_append ('{' :: u) post
        simp only [List.map, List.cons_append] at h0
        exact h0
      show replaceAllGo (RChar.lit '{' :: u.map RChar.lit) repl (f + 1) ('{' :: (u ++ post)) =
        [] ++ repl ++ post
      rw [replaceAllGo_cons, hm]
      show repl ++ replaceAllGo (RChar.lit '{' :: u.map RChar.lit) repl f post =
        [] ++ repl ++ post
      rw [replaceAllGo_not_open post f (u.map RChar.lit) repl hpost]
      simp
  | cons a pre' ih =>
    intro fuel hpre hlen
    cases fuel with
    | zero => simp at hlen
    | succ f =>
      have ha : ¬(a = '{') := hpre a (List.mem_cons_self a pre')
      have hm : matchAt (RChar.lit '{' :: u.map RChar.lit)
          (a :: (pre' ++ '{' :: u ++ post)) = none := by
        simp only [matchAt, rcharMatch]
        rw [if_neg (by rw [charBeq_false (fun he => ha he.symm)]; simp)]
      show replaceAllGo (RChar.lit '{' :: u.map RChar.lit) repl (f + 1)
          (a :: (pre' ++ '{' :: u ++ post)) = (a :: pre') ++ repl ++ post
      rw [replaceAllGo_cons, hm]
      show a :: replaceAllGo (RChar.lit '{' :: u.map RChar.lit) repl f
          (pre' ++ '{' :: u ++ post) = (a :: pre') ++ repl ++ post
      rw [ih f (fun c' hc' => hpre c' (List.mem_cons_of_mem _ hc'))
        (by simp only [List.cons_append, List.length_cons] at hlen; omega)]
      simp

/-- C5 (amended): a token `\x7bt\x7d` whose name `t` is a plain top-level key
(no dots, brackets or braces) with no value in `params` is NOT left
unchanged: the `undefined` resolution is stringified by `replaceAll`, so the
token is replaced by the literal text `undefined`. -/
theorem missing_top_level_key_substitutes_undefined :
    ∀ (pre t post : String) (params : JParams),
      t.toList ≠ [] →
      (∀ c ∈ t.toList, ¬(c = '{') ∧ ¬(c = '}') ∧ ¬(c = '[') ∧ ¬(c = '.')) →
      (∀ c ∈ pre.toList, ¬(c = '{')) →
      (∀ c ∈ post.toList, ¬(c = '{')) →
      jsField params t = none →
      substituteCommand (pre ++ "\x7b" ++ t ++ "\x7d" ++ post) params =
        pre ++ "undefined" ++ post := by
  intro pre t post params htne ht hpre hpost hf
  have hcmd : (pre ++ "\x7b" ++ t ++ "\x7d" ++ post).toList
      = pre.toList ++ '{' :: (t.toList ++ '}' :: post.toList) := by
    show (pre ++ "\x7b" ++ t ++ "\x7d" ++ post).data
      = pre.data ++ '{' :: (t.data ++ '}' :: post.data)
    simp [String.data_append]
  have htoks : extractTokens (pre ++ "\x7b" ++ t ++ "\x7d" ++ post) = [t] := by
    unfold extractTokens
    rw [hcmd]
    rw [extractTokens_single pre.toList t.toList post.toList hpre
      (fun c hc => (ht c hc).2.1) htne hpost]
    rfl
  unfold substituteCommand
  rw [htoks]
  simp only [List.foldl]
  unfold substituteTokenStep
  have hcont : t.toList.contains '.' = false :=
    contains_false_of_forall_ne t.toList '.' (fun c hc => (ht c hc).2.2.2)
  have hres : resolveToken params t = none := by
    unfold resolveToken
    rw [if_neg (by rw [hcont]; simp)]
    exact hf
  rw [hres]
  have hchars : ∀ c ∈ ('{' :: (t.toList ++ ['}'])), ¬(c = '[') ∧ ¬(c = '.') := by
    intro c hc
    rcases List.mem_cons.mp hc with h1 | h2
    · subst h1; exact ⟨by decide, by decide⟩
    · rcases List.mem_append.mp h2 with h3 | h4
      · exact ⟨(ht c h3).2.2.1, (ht c h3).2.2.2⟩
      · have h5 : c = '}' := List.mem_singleton.mp h4
        subst h5; exact ⟨by decide, by decide⟩
  have hcomp : compileRegex ("\x7b" ++ t ++ "\x7d")
      = RChar.lit '{' :: (t.toList ++ ['}']).map RChar.lit := by
    unfold compileRegex
    have hlist : ("\x7b" ++ t ++ "\x7d").toList = '{' :: (t.toList ++ ['}']) := by
      show ("\x7b" ++ t ++ "\x7d").data = '{' :: (t.data ++ ['}'])
      simp [String.data_append]
    rw [hlist]
    rw [compileRegexGo_lits _ hchars]
    simp [List.map]
  rw [hcomp]
  unfold jsReplaceAll
  dsimp only
  rw [hcmd]
  have hshape : pre.toList ++ '{' :: (t.toList ++ '}' :: post.toList)
      = pre.toList ++ '{' :: (t.toList ++ ['}']) ++ post.toList := by
    simp [List.append_assoc]
  rw [hshape]
  rw [replaceAllGo_single (t.toList ++ ['}']) post.toList (jsToStringOpt none).toList hpost
    pre.toList _ hpre (le_refl _)]
  show String.mk (pre.data ++ "undefined".data ++ post.data) = pre ++ "undefined" ++ post
  have hdata : pre.data ++ "undefined".data ++ post.data
      = (pre ++ "undefined" ++ post).data := by
    simp [String.data_append]
  rw [hdata]

/-- C5 counterexample to the claim as stated: the token `\x7bfoo\x7d` with no
`foo` in params is replaced by the text `undefined`, not left unchanged. -/
theorem missing_key_substituted_counterexample :
    substituteCommand "GOTO \x7bfoo\x7d" [] = "GOTO undefined" ∧
      ("GOTO undefined" : String) ≠ "GOTO \x7bfoo\x7d" := by
  exact ⟨rfl, by decide⟩

theorem missing_top_level_key_substitutes_undefined_witness :
    substituteCommand ("GOTO " ++ "\x7b" ++ "foo" ++ "\x7d" ++ "") [] =
      "GOTO " ++ "undefined" ++ "" :=
  missing_top_level_key_substitutes_undefined "GOTO " "foo" "" []
    (by decide) (by decide) (by decide) (by decide) rfl
